import Mathlib

/-!
Verification development for the hot-region balance scheduler
(`pkg/schedule/schedulers/hot_region.go`): a shallow embedding of the
pending-influence ledger, the decay pass, the hot-peer filter with its
zipper union, and the operator builder, together with theorems about the
properties stated in the specification.

Machine floating-point load values are embedded as rationals; wall-clock
durations are embedded as natural numbers of elapsed time units.
-/

namespace HotRegionSched

/-- Store identifier (Go `uint64`). -/
abbrev StoreId := Nat

/-- Region identifier (Go `uint64`). -/
abbrev RegionId := Nat

/-- a key of the key space, embedded as a natural number; only the order
on keys matters to the scheduler. -/
abbrev Key := Nat

/-- `statistics.Influence`: the load deltas and the operator count that one
in-flight operator contributes (field `origin` of `pendingInfluence`). -/
structure Influence where
  loads : List ℚ
  count : ℚ
deriving DecidableEq

/-- Modelled from the spec: `StoreSummaryInfo.AddInfluence(origin, w)` of the
missing `statistics` package adds `w` times the origin influence into the
store's pending sum, dimension by dimension. -/
def addInfluence (s : Influence) (origin : Influence) (w : ℚ) : Influence :=
  { loads := List.zipWith (fun a b => a + w * b) s.loads origin.loads
    count := s.count + w * origin.count }

/-- Operator status, from the missing `operator` package: `created` and
`started` are running statuses, the rest are end statuses. -/
inductive OpStatus where
  | created
  | started
  | success
  | canceled
  | replaced
  | timedOut
  | expired
deriving DecidableEq

/-- Modelled from the spec: `operator.IsEndStatus` of the missing `operator`
package holds exactly for the terminal statuses (SUCCESS, CANCELED,
REPLACED, TIMEOUT, EXPIRED). -/
def isEndStatus : OpStatus → Bool
  | .created => false
  | .started => false
  | _ => true

/-- `calcPendingInfluence(op, maxZombieDur)`: the weight in `[0,1]` of one
pending operator and whether its ledger entry needs garbage collection.
The operator handle is embedded by its current status `status` and by
`zombieDur`, the time elapsed since the status was reached
(Go `time.Since(op.GetReachTimeOf(status))`). -/
def calcPendingInfluence (status : OpStatus) (zombieDur maxZombieDur : Nat) :
    ℚ × Bool :=
  if isEndStatus status = false then (1, false)
  else
    let weight : ℚ := if maxZombieDur ≤ zombieDur then 0 else 1
    let needGC : Bool := weight = 0
    let weight : ℚ := if status ≠ OpStatus.success then 0 else weight
    (weight, needGC)

/-- `pendingInfluence` (from the schedulers package): one ledger entry.
The referenced operator handle is embedded by its status and by the time
elapsed since that status was reached; `froms`, `to`, `origin` and
`maxZombieDuration` are the remaining fields of the Go struct. -/
structure PendingRec where
  opStatus : OpStatus
  zombieDur : Nat
  froms : List StoreId
  toStore : StoreId
  origin : Influence
  maxZombieDuration : Nat
deriving DecidableEq

/-- `regionPendings`: the pending-influence ledger, keyed by region id with
at most one entry per region. Embedded as an association list. -/
abbrev Ledger := List (RegionId × PendingRec)

/-- Store summaries (`map[uint64]*statistics.StoreSummaryInfo`), reduced to
the pending-sum influence each store accumulates during the decay pass;
`none` stands for a store id absent from the map (`storeInfos[id] == nil`). -/
abbrev Summaries := StoreId → Option Influence

/-- Point update of the store summaries at one store id. -/
def updStore (st : Summaries) (id : StoreId) (v : Influence) : Summaries :=
  fun s => if s = id then some v else st s

/-- One iteration of the inner `for _, from := range p.froms` loop of
`baseHotScheduler.summaryPendingInfluence`: recompute `(weight, needGC)`,
delete the entry (flag `true`) and skip on `needGC`, otherwise apply
`-weight` of the origin to the from store and `+weight` of the origin to
the to store when those stores are present and the weight is positive. -/
def summaryEntryStep (p : PendingRec) (acc : Summaries × Bool) (fromId : StoreId) :
    Summaries × Bool :=
  let wg := calcPendingInfluence p.opStatus p.zombieDur p.maxZombieDuration
  if wg.2 then (acc.1, true)
  else
    let st1 : Summaries :=
      match acc.1 fromId with
      | some s => if 0 < wg.1 then updStore acc.1 fromId (addInfluence s p.origin (-wg.1)) else acc.1
      | none => acc.1
    let st2 : Summaries :=
      match st1 p.toStore with
      | some s => if 0 < wg.1 then updStore st1 p.toStore (addInfluence s p.origin wg.1) else st1
      | none => st1
    (st2, acc.2)

/-- Effect of one ledger entry inside the decay pass: the inner loop of
`summaryPendingInfluence` over `p.froms`. The boolean result reports
whether the entry was deleted from `regionPendings`. -/
def summaryEntry (stores : Summaries) (p : PendingRec) : Summaries × Bool :=
  p.froms.foldl (summaryEntryStep p) (stores, false)

/-- `baseHotScheduler.summaryPendingInfluence`: the decay pass over the
ledger. Returns the updated store summaries and the retained entries
(the Go map iteration order is embedded as the list order). -/
def summaryPendingInfluence (stores : Summaries) (pendings : Ledger) :
    Summaries × Ledger :=
  pendings.foldl
    (fun acc ent =>
      let r := summaryEntry acc.1 ent.2
      (r.1, if r.2 then acc.2 else acc.2 ++ [ent]))
    (stores, [])

/-- an operator as handed to the ledger: its region id, whether its kind is
`OpSplit` (Go `bs.ops[0].Kind() == operator.OpSplit`), its current status
and the elapsed time since that status, which together embed the
`*operator.Operator` handle. -/
structure HSOp where
  opRegionId : RegionId
  isSplitKind : Bool
  status : OpStatus
  zombieDur : Nat
deriving DecidableEq

/-- `newPendingInfluence(op, froms, to, infl, maxZombieDur)`: builds the
ledger entry recording the operator handle and its influence. -/
def newPendingInfluence (op : HSOp) (froms : List StoreId) (toStore : StoreId)
    (infl : Influence) (maxZombieDur : Nat) : PendingRec :=
  { opStatus := op.status
    zombieDur := op.zombieDur
    froms := froms
    toStore := toStore
    origin := infl
    maxZombieDuration := maxZombieDur }

/-- `hotScheduler.tryAddPendingInfluence`: fails (and leaves the ledger
unchanged) when the operator's region already has a pending entry,
otherwise records the new entry under the operator's region id. -/
def schTryAddPendingInfluence (pendings : Ledger) (regionId : RegionId)
    (rec : PendingRec) : Bool × Ledger :=
  if (pendings.lookup regionId).isSome then (false, pendings)
  else (true, pendings ++ [(regionId, rec)])

/-- the fields of `bs.best` that `balanceSolver.tryAddPendingInfluence`
reads: the source and destination store ids, their TiFlash flags, and
whether the best solution carries a revert peer (`revertPeerStat != nil`). -/
structure BestSol where
  srcStoreId : StoreId
  dstStoreId : StoreId
  srcIsTiFlash : Bool
  dstIsTiFlash : Bool
  hasRevertPeer : Bool
deriving DecidableEq

/-- the state of a `balanceSolver` at `tryAddPendingInfluence` time:
the best solution, the operator batch `bs.ops`, the cluster region lookup
`bs.GetRegion(..).GetStoreIDs()` used for split operators, the influences
collected from the main and revert peer statistics
(`collectPendingInfluence`, whose statistics inputs are external), and the
zombie duration chosen by `calcMaxZombieDur` from the configuration. -/
structure SolverCtx where
  best : Option BestSol
  ops : List HSOp
  regionStoreIds : RegionId → Option (List StoreId)
  mainInfl : Influence
  revertInfl : Influence
  maxZombieDur : Nat

/-- `balanceSolver.tryAddPendingInfluence`: rejects an empty batch or a
TiFlash-mismatched non-split solution before touching the ledger, then
inserts the main operator and, for a non-split batch with a revert peer
and a second operator, the revert operator. Returns whether the batch was
submitted, together with the resulting ledger. -/
def bsTryAddPendingInfluence (c : SolverCtx) (pendings : Ledger) : Bool × Ledger :=
  match c.best, c.ops with
  | none, _ => (false, pendings)
  | some _, [] => (false, pendings)
  | some best, op0 :: restOps =>
    if op0.isSplitKind = false ∧ best.srcIsTiFlash ≠ best.dstIsTiFlash then
      (false, pendings)
    else
      let srcIds : Option (List StoreId) :=
        if op0.isSplitKind then c.regionStoreIds op0.opRegionId
        else some [best.srcStoreId]
      match srcIds with
      | none => (false, pendings)
      | some srcStoreIDs =>
        let dstStoreID : StoreId := if op0.isSplitKind then 0 else best.dstStoreId
        let r1 := schTryAddPendingInfluence pendings op0.opRegionId
          (newPendingInfluence op0 srcStoreIDs dstStoreID c.mainInfl c.maxZombieDur)
        if r1.1 = false then (false, r1.2)
        else if op0.isSplitKind then (true, r1.2)
        else
          match restOps with
          | [] => (true, r1.2)
          | op1 :: _ =>
            if best.hasRevertPeer then
              let r2 := schTryAddPendingInfluence r1.2 op1.opRegionId
                (newPendingInfluence op1 srcStoreIDs dstStoreID c.revertInfl c.maxZombieDur)
              if r2.1 = false then (false, r2.2) else (true, r2.2)
            else (true, r1.2)

/-- `statistics.HotPeerStat`, reduced to the fields the solver reads: the
peer's region and store, its per-dimension loads, whether it is the
leader peer, and the transfer-leader cool-down flag (the verdict of
`IsNeedCoolDownTransferLeader(minHotDegree, rwTy)`, whose inputs live in
the missing statistics package). -/
structure HotPeerStatM where
  regionIdOfPeer : RegionId
  peerStoreId : StoreId
  loads : List ℚ
  isLeaderPeer : Bool
  needCoolDown : Bool
deriving DecidableEq

/-- `HotPeerStat.GetLoad(dim)`; a missing dimension reads as `0`. -/
def getLoad (p : HotPeerStatM) (dim : Nat) : ℚ :=
  p.loads.getD dim 0

/-- `statistics.StoreLoadDetail`, reduced to the fields `filterHotPeers`
and `tryAddPendingInfluence` read. -/
structure StoreDetailM where
  storeId : StoreId
  isTiFlashStore : Bool
  hotPeers : List HotPeerStatM
deriving DecidableEq

/-- the solver state that `filterHotPeers` consults: the current ledger
(`bs.sche.regionPendings`), the peer cap `bs.maxPeerNum`, and the two
priority dimensions. -/
structure FilterCtx where
  pendings : Ledger
  maxPeerNum : Nat
  firstPriorityDim : Nat
  secondPriorityDim : Nat

/-- the admission test of `appendItem` inside `filterHotPeers`: the peer's
region has no pending entry and the peer needs no transfer-leader
cool-down. -/
def hotPeerAllowed (ctx : FilterCtx) (p : HotPeerStatM) : Bool :=
  ((ctx.pendings.lookup p.regionIdOfPeer).isSome = false) ∧ p.needCoolDown = false

/-- Descending insertion into a list sorted by decreasing load on `dim`. -/
def insertDesc (dim : Nat) (p : HotPeerStatM) :
    List HotPeerStatM → List HotPeerStatM
  | [] => [p]
  | q :: rest =>
    if getLoad q dim < getLoad p dim then p :: q :: rest
    else q :: insertDesc dim p rest

/-- the `sort.Slice(..., GetLoad(dim) decreasing)` calls of
`filterHotPeers`, embedded as an insertion sort (any permutation sorted by
decreasing load on `dim` is a faithful embedding of the unstable Go sort). -/
def sortByLoadDesc (dim : Nat) : List HotPeerStatM → List HotPeerStatM
  | [] => []
  | p :: rest => insertDesc dim p (sortByLoadDesc dim rest)

/-- one inner loop of `sortHotPeers`: pop elements off the list until one
not yet in the union is found (returning it with the rest of the list) or
the list is exhausted. -/
def popUnseen (union : List HotPeerStatM) :
    List HotPeerStatM → Option (HotPeerStatM × List HotPeerStatM)
  | [] => none
  | p :: rest => if p ∈ union then popUnseen union rest else some (p, rest)

/-- one iteration of the outer `for len(union) < bs.maxPeerNum` loop of
`sortHotPeers`: take the unseen head of the first-priority list, then,
if the union is still short, the unseen head of the second-priority list. -/
def sortStep (maxPeerNum : Nat) (st : List HotPeerStatM × List HotPeerStatM × List HotPeerStatM) :
    List HotPeerStatM × List HotPeerStatM × List HotPeerStatM :=
  let (firstSort, secondSort, union) := st
  let (firstSort, union) :=
    match popUnseen union firstSort with
    | none => (([] : List HotPeerStatM), union)
    | some (p, rest) => (rest, union ++ [p])
  if union.length < maxPeerNum then
    match popUnseen union secondSort with
    | none => (firstSort, ([] : List HotPeerStatM), union)
    | some (p, rest) => (firstSort, rest, union ++ [p])
  else (firstSort, secondSort, union)

/-- `balanceSolver.sortHotPeers`, with explicit gas: the Go loop runs until
the union reaches `maxPeerNum` and has no other exit, so a run that does
not finish within the given number of outer iterations is reported as
`none` (the Go function would not have returned). The union set is
embedded as a list in insertion order. -/
def sortHotPeersGas (maxPeerNum : Nat) :
    Nat → List HotPeerStatM → List HotPeerStatM → List HotPeerStatM →
    Option (List HotPeerStatM)
  | 0, _, _, union =>
    if maxPeerNum ≤ union.length then some union else none
  | gas + 1, firstSort, secondSort, union =>
    if maxPeerNum ≤ union.length then some union
    else
      let st := sortStep maxPeerNum (firstSort, secondSort, union)
      sortHotPeersGas maxPeerNum gas st.1 st.2.1 st.2.2

/-- `balanceSolver.filterHotPeers` on one store's load detail: when the
raw hot-peer list exceeds `maxPeerNum`, the candidates are the zipper
union of the two descending sorts, filtered by `hotPeerAllowed`;
otherwise the raw list filtered by `hotPeerAllowed`. A `none` result
marks the diverging runs of the Go union loop (`maxPeerNum` outer
iterations always suffice when the loop terminates, since each outer
iteration adds at least one peer or changes nothing ever after). -/
def filterHotPeersM (ctx : FilterCtx) (storeLoad : StoreDetailM) :
    Option (List HotPeerStatM) :=
  let hotPeers := storeLoad.hotPeers
  if ctx.maxPeerNum < hotPeers.length then
    let firstSort := sortByLoadDesc ctx.firstPriorityDim hotPeers
    let secondSort := sortByLoadDesc ctx.secondPriorityDim hotPeers
    (sortHotPeersGas ctx.maxPeerNum ctx.maxPeerNum firstSort secondSort []).map
      (fun union => union.filter (hotPeerAllowed ctx))
  else some (hotPeers.filter (hotPeerAllowed ctx))

/-- `metapb.Peer`, reduced to its store id and role (the role is carried
through the builder unchanged, so it is embedded as an opaque number). -/
structure PeerM where
  peerStore : StoreId
  role : Nat
deriving DecidableEq

/-- `core.RegionInfo`, reduced to the fields the operator builder reads:
id, replica peers, leader store, key range, bucket boundary keys
(`region.GetBuckets().GetKeys()`), and approximate size. -/
structure RegionInfoM where
  rid : RegionId
  peers : List PeerM
  leaderStoreId : StoreId
  startKey : Key
  endKey : Key
  bucketKeys : List Key
  approximateSize : Int
deriving DecidableEq

/-- `region.GetStorePeer(storeID)`: the region's peer on the given store,
if any. -/
def getStorePeer (r : RegionInfoM) (s : StoreId) : Option PeerM :=
  r.peers.find? (fun p => p.peerStore = s)

/-- Modelled from the spec: `keyutil.Between(startKey, endKey, key)` of the
missing `keyutil` package holds when the key lies strictly inside the key
range, making sure a chosen split key actually splits the region. -/
def keyBetween (startKey endKey key : Key) : Bool :=
  startKey < key ∧ key < endKey

/-- Kinds of operators the builder can emit. -/
inductive OpKindM where
  | transferLeaderOp
  | moveLeaderOp
  | movePeerOp
  | splitOp
deriving DecidableEq

/-- an emitted `operator.Operator`, reduced to the fields the claims
mention: kind, region, source and destination stores (0 when the kind has
none), the role given to the new destination peer (move operators), the
chosen split key (split operators) and the revert tag that
`decorateOperator` applies to the second operator of a pair. -/
structure OperatorM where
  kind : OpKindM
  opRegion : RegionId
  srcStore : StoreId
  dstStore : StoreId
  dstPeerRole : Nat
  splitKey : Key
  isRevert : Bool
deriving DecidableEq

/-- `balanceSolver.createOperator(region, srcStoreID, dstStoreID)`:
a transfer-leader operator when the destination already holds a peer,
otherwise a move-leader operator when the source holds the leader, else a
move-peer operator; the new destination peer copies the source peer's
role. The `none` result is the path where the region has no peer on the
source store (the Go code dereferences it unchecked, relying on
`filterHotPeers`; the operator-sink constructors of the missing
`operator` package are embedded as always succeeding). -/
def createOperator (region : RegionInfoM) (srcStoreID dstStoreID : StoreId) :
    Option OperatorM :=
  if (getStorePeer region dstStoreID).isSome then
    some { kind := .transferLeaderOp, opRegion := region.rid,
           srcStore := srcStoreID, dstStore := dstStoreID,
           dstPeerRole := 0, splitKey := 0, isRevert := false }
  else
    match getStorePeer region srcStoreID with
    | none => none
    | some srcPeer =>
      if region.leaderStoreId = srcStoreID then
        some { kind := .moveLeaderOp, opRegion := region.rid,
               srcStore := srcStoreID, dstStore := dstStoreID,
               dstPeerRole := srcPeer.role, splitKey := 0, isRevert := false }
      else
        some { kind := .movePeerOp, opRegion := region.rid,
               srcStore := srcStoreID, dstStore := dstStoreID,
               dstPeerRole := srcPeer.role, splitKey := 0, isRevert := false }

/-- `balanceSolver.splitBucketBySize`: keep the bucket boundary keys lying
inside the region and split at the middle one; no operator when no bucket
key is in range. -/
def splitBucketBySize (region : RegionInfoM) : Option OperatorM :=
  let splitKeys := region.bucketKeys.filter
    (fun k => keyBetween region.startKey region.endKey k)
  if splitKeys.isEmpty then none
  else
    some { kind := .splitOp, opRegion := region.rid,
           srcStore := 0, dstStore := 0, dstPeerRole := 0,
           splitKey := splitKeys.getD (splitKeys.length / 2) 0,
           isRevert := false }

/-- `balanceSolver.createSplitOperator(regions, bySize)`: one split
operator per region for which `splitBucketBySize` finds a key (`byLoad`,
used only on the search loop's too-hot path, is not needed here). -/
def createSplitOperatorBySize (regions : List RegionInfoM) : List OperatorM :=
  regions.filterMap splitBucketBySize

/-- the current solution fields that `isReadyToBuild` and `buildOperators`
read. -/
structure CurSolution where
  srcStore : Option StoreDetailM
  region : Option RegionInfoM
  mainPeerStat : Option HotPeerStatM
  dstStore : Option StoreDetailM
  revertRegion : Option RegionInfoM
  revertPeerStat : Option HotPeerStatM
deriving DecidableEq

/-- `balanceSolver.isReadyToBuild`: source, destination, main peer and
region are present and consistent, and the revert peer and revert region,
when present, are consistent with the destination store. -/
def isReadyToBuild (cur : CurSolution) : Bool :=
  match cur.srcStore, cur.dstStore, cur.mainPeerStat, cur.region with
  | some src, some dst, some mainPeer, some region =>
    if mainPeer.peerStoreId = src.storeId ∧ region.rid = mainPeer.regionIdOfPeer then
      match cur.revertPeerStat with
      | none => cur.revertRegion = none
      | some rp =>
        decide (rp.peerStoreId = dst.storeId) &&
          (match cur.revertRegion with
           | some rr => decide (rr.rid = rp.regionIdOfPeer)
           | none => false)
    else false
  | _, _, _, _ => false

/-- `opType` of the solver (`movePeer`, `transferLeader`, `moveLeader`). -/
inductive OpTypeM where
  | movePeer
  | transferLeader
  | moveLeader
deriving DecidableEq

/-- `balanceSolver.decorateOperator`, reduced to the revert tag it applies
(the priority level and the metric counters it also sets are opaque to
the claims). -/
def decorateOperator (op : OperatorM) (isRev : Bool) : OperatorM :=
  { op with isRevert := isRev }

/-- the solver state that `buildOperators` reads: the operator type, the
current solution, and the `max-movable-hot-peer-size` configuration. -/
structure BuildCtx where
  opTy : OpTypeM
  cur : CurSolution
  maxMovableHotPeerSize : Int

/-- the `splitRegions` local of `buildOperators`: for `movePeer`, the
selected regions (main and, when present, revert) whose approximate size
exceeds `max-movable-hot-peer-size`; empty for the other operator types. -/
def splitRegionsOf (b : BuildCtx) (region : RegionInfoM) : List RegionInfoM :=
  if b.opTy = .movePeer then
    (region ::
      (match b.cur.revertRegion with
       | some rr => [rr]
       | none => [])).filter
      (fun r => b.maxMovableHotPeerSize < r.approximateSize)
  else []

/-- `balanceSolver.buildOperators`: nothing unless `isReadyToBuild`; for
`movePeer`, any selected region larger than `max-movable-hot-peer-size`
diverts the whole call to `createSplitOperator(… bySize)`; otherwise the
main operator for (region, src→dst) and, when a revert region is present,
the revert operator for (revertRegion, dst→src). A failed operator
creation drops the whole batch. -/
def buildOperators (b : BuildCtx) : List OperatorM :=
  if isReadyToBuild b.cur = false then []
  else
    match b.cur.srcStore, b.cur.dstStore, b.cur.region with
    | some src, some dst, some region =>
      if (splitRegionsOf b region).isEmpty = false then
        createSplitOperatorBySize (splitRegionsOf b region)
      else
        match createOperator region src.storeId dst.storeId with
        | none => []
        | some mainOp =>
          match b.cur.revertRegion with
          | none => [decorateOperator mainOp false]
          | some rr =>
            match createOperator rr dst.storeId src.storeId with
            | none => []
            | some revOp =>
              [decorateOperator mainOp false, decorateOperator revOp true]
    | _, _, _ => []

/-! Concrete fixtures used by witnesses and counterexamples. -/

/-- a placeholder operator value used as the default of list indexing. -/
def dummyOp : OperatorM :=
  { kind := .splitOp, opRegion := 0, srcStore := 0, dstStore := 0,
    dstPeerRole := 0, splitKey := 0, isRevert := false }

/-- a running-operator ledger entry used by several fixtures. -/
def recRunning : PendingRec :=
  { opStatus := .started, zombieDur := 0, froms := [1], toStore := 2,
    origin := { loads := [1], count := 1 }, maxZombieDuration := 5 }

/-- best solution of the revert-conflict scenario. -/
def bestC1 : BestSol :=
  { srcStoreId := 1, dstStoreId := 2, srcIsTiFlash := false,
    dstIsTiFlash := false, hasRevertPeer := true }

/-- main operator of the revert-conflict scenario (region 10). -/
def op0C1 : HSOp :=
  { opRegionId := 10, isSplitKind := false, status := .started, zombieDur := 0 }

/-- revert operator of the revert-conflict scenario (region 20, already
pending). -/
def op1C1 : HSOp :=
  { opRegionId := 20, isSplitKind := false, status := .started, zombieDur := 0 }

/-- solver state for the revert-conflict scenario: a two-operator non-split
batch whose revert operator's region (20) is already pending. -/
def ctxC1 : SolverCtx :=
  { best := some bestC1
    ops := [op0C1, op1C1]
    regionStoreIds := fun _ => none
    mainInfl := { loads := [1], count := 1 }
    revertInfl := { loads := [1], count := 1 }
    maxZombieDur := 5 }

/-- the ledger of the revert-conflict scenario: region 20 already pending. -/
def ledgerC1 : Ledger := [(20, recRunning)]

/-- a two-from ledger entry, as the split path creates, but with a
destination store (3) that is present in the summaries. -/
def recC2 : PendingRec :=
  { opStatus := .started, zombieDur := 0, froms := [1, 2], toStore := 3,
    origin := { loads := [1], count := 1 }, maxZombieDuration := 5 }

/-- store summaries holding stores 1, 2 and 3 with zero pending sums. -/
def storesC2 : Summaries :=
  fun s => if s = 1 ∨ s = 2 ∨ s = 3 then some { loads := [0], count := 0 } else none

/-- an oversize main region with one in-range bucket key. -/
def regionC3 : RegionInfoM :=
  { rid := 1, peers := [{ peerStore := 1, role := 0 }], leaderStoreId := 1,
    startKey := 0, endKey := 10, bucketKeys := [5], approximateSize := 100 }

/-- an oversize revert region with one in-range bucket key. -/
def revertRegionC3 : RegionInfoM :=
  { rid := 2, peers := [{ peerStore := 2, role := 0 }], leaderStoreId := 2,
    startKey := 0, endKey := 10, bucketKeys := [5], approximateSize := 100 }

/-- a ready-to-build movePeer solution whose main and revert regions both
exceed `max-movable-hot-peer-size`. -/
def bC3 : BuildCtx :=
  { opTy := .movePeer
    cur := { srcStore := some { storeId := 1, isTiFlashStore := false, hotPeers := [] }
             region := some regionC3
             mainPeerStat := some { regionIdOfPeer := 1, peerStoreId := 1, loads := [1],
                                    isLeaderPeer := true, needCoolDown := false }
             dstStore := some { storeId := 2, isTiFlashStore := false, hotPeers := [] }
             revertRegion := some revertRegionC3
             revertPeerStat := some { regionIdOfPeer := 2, peerStoreId := 2, loads := [1],
                                      isLeaderPeer := true, needCoolDown := false } }
    maxMovableHotPeerSize := 50 }

/-- the same solution as `bC3` with a large movable-size limit, so the
builder takes the non-split main-plus-revert path. -/
def bC3Move : BuildCtx :=
  { opTy := .movePeer, cur := bC3.cur, maxMovableHotPeerSize := 1000 }

/-- hot peer of region 1 (the hottest on the single dimension). -/
def p1C8 : HotPeerStatM :=
  { regionIdOfPeer := 1, peerStoreId := 1, loads := [10], isLeaderPeer := false,
    needCoolDown := false }

/-- hot peer of region 2. -/
def p2C8 : HotPeerStatM :=
  { regionIdOfPeer := 2, peerStoreId := 1, loads := [5], isLeaderPeer := false,
    needCoolDown := false }

/-- filter state where region 1 is pending and the peer cap is 1. -/
def ctxC8 : FilterCtx :=
  { pendings := [(1, recRunning)], maxPeerNum := 1,
    firstPriorityDim := 0, secondPriorityDim := 0 }

/-- a store with two hot peers, one over the cap. -/
def storeC8 : StoreDetailM :=
  { storeId := 1, isTiFlashStore := false, hotPeers := [p1C8, p2C8] }

/-- filter state with an empty ledger and the peer cap 1: nothing is
excluded after the zipper union. -/
def ctxC8b : FilterCtx :=
  { pendings := [], maxPeerNum := 1, firstPriorityDim := 0, secondPriorityDim := 0 }

/-! Theorems. -/

/-- C4: `calcPendingInfluence` returns weight 1 and no GC while the
operator is not in an end status; once it is, GC is signalled exactly when
the elapsed zombie time reaches `maxZombieDur`; a SUCCESS end status keeps
weight 1 until the zombie time elapses, while a non-success end status
yields weight 0 immediately but is retained (no GC) until it elapses. -/
theorem calcPendingInfluence_spec (status : OpStatus) (zombieDur maxZombieDur : Nat) :
    (isEndStatus status = false →
      calcPendingInfluence status zombieDur maxZombieDur = (1, false)) ∧
    (isEndStatus status = true →
      ((calcPendingInfluence status zombieDur maxZombieDur).2 = true ↔
        maxZombieDur ≤ zombieDur)) ∧
    (status = OpStatus.success → zombieDur < maxZombieDur →
      calcPendingInfluence status zombieDur maxZombieDur = (1, false)) ∧
    (status = OpStatus.success → maxZombieDur ≤ zombieDur →
      calcPendingInfluence status zombieDur maxZombieDur = (0, true)) ∧
    (isEndStatus status = true → status ≠ OpStatus.success →
      (calcPendingInfluence status zombieDur maxZombieDur).1 = 0 ∧
        ((calcPendingInfluence status zombieDur maxZombieDur).2 = false ↔
          zombieDur < maxZombieDur)) := by
  unfold calcPendingInfluence
  by_cases h : maxZombieDur ≤ zombieDur <;>
    rcases status <;> simp [isEndStatus, h] <;> omega

/-- Witness for C4 at concrete statuses and durations. -/
theorem calcPendingInfluence_spec_witness :
    calcPendingInfluence OpStatus.started 0 5 = (1, false) ∧
    calcPendingInfluence OpStatus.success 3 5 = (1, false) ∧
    calcPendingInfluence OpStatus.success 5 5 = (0, true) ∧
    (calcPendingInfluence OpStatus.canceled 3 5).1 = 0 ∧
    (calcPendingInfluence OpStatus.canceled 3 5).2 = false := by
  refine ⟨(calcPendingInfluence_spec OpStatus.started 0 5).1 (by decide),
    (calcPendingInfluence_spec OpStatus.success 3 5).2.2.1 rfl (by decide),
    (calcPendingInfluence_spec OpStatus.success 5 5).2.2.2.1 rfl (by decide),
    ((calcPendingInfluence_spec OpStatus.canceled 3 5).2.2.2.2 (by decide) (by decide)).1,
    (((calcPendingInfluence_spec OpStatus.canceled 3 5).2.2.2.2 (by decide) (by decide)).2).2
      (by decide)⟩

/-- C6: `createOperator` builds a transfer-leader operator when the
destination store already holds a peer of the region; otherwise a
move-leader operator when the source store holds the leader; otherwise a
move-peer operator whose new destination peer carries the same role as
the source store's peer. -/
theorem createOperator_spec (region : RegionInfoM) (src dst : StoreId) :
    ((getStorePeer region dst).isSome = true →
      ∃ op, createOperator region src dst = some op ∧
        op.kind = OpKindM.transferLeaderOp ∧ op.opRegion = region.rid ∧
        op.srcStore = src ∧ op.dstStore = dst) ∧
    (∀ p, getStorePeer region dst = none → getStorePeer region src = some p →
      region.leaderStoreId = src →
      createOperator region src dst = some
        { kind := OpKindM.moveLeaderOp, opRegion := region.rid, srcStore := src,
          dstStore := dst, dstPeerRole := p.role, splitKey := 0, isRevert := false }) ∧
    (∀ p, getStorePeer region dst = none → getStorePeer region src = some p →
      region.leaderStoreId ≠ src →
      createOperator region src dst = some
        { kind := OpKindM.movePeerOp, opRegion := region.rid, srcStore := src,
          dstStore := dst, dstPeerRole := p.role, splitKey := 0, isRevert := false }) := by
  refine ⟨?_, ?_, ?_⟩
  · intro h
    unfold createOperator
    simp [h]
  · intro p hdst hsrc hlead
    unfold createOperator
    simp [hdst, hsrc, hlead]
  · intro p hdst hsrc hlead
    unfold createOperator
    simp [hdst, hsrc, hlead]

/-- Witness for C6: the three branches at concrete regions and stores. -/
theorem createOperator_spec_witness :
    createOperator regionC3 1 2 = some
      { kind := OpKindM.moveLeaderOp, opRegion := 1, srcStore := 1, dstStore := 2,
        dstPeerRole := 0, splitKey := 0, isRevert := false } ∧
    (∃ op, createOperator revertRegionC3 1 2 = some op ∧
      op.kind = OpKindM.transferLeaderOp ∧ op.opRegion = revertRegionC3.rid ∧
      op.srcStore = 1 ∧ op.dstStore = 2) ∧
    createOperator
      { rid := 9, peers := [{ peerStore := 1, role := 7 }], leaderStoreId := 5,
        startKey := 0, endKey := 10, bucketKeys := [], approximateSize := 10 } 1 3 = some
      { kind := OpKindM.movePeerOp, opRegion := 9, srcStore := 1, dstStore := 3,
        dstPeerRole := 7, splitKey := 0, isRevert := false } := by
  refine ⟨?_, ?_, ?_⟩
  · exact (createOperator_spec regionC3 1 2).2.1 { peerStore := 1, role := 0 }
      (by decide) (by decide) (by decide)
  · exact (createOperator_spec revertRegionC3 1 2).1 (by decide)
  · exact (createOperator_spec
      { rid := 9, peers := [{ peerStore := 1, role := 7 }], leaderStoreId := 5,
        startKey := 0, endKey := 10, bucketKeys := [], approximateSize := 10 } 1 3).2.2
      { peerStore := 1, role := 7 } (by decide) (by decide) (by decide)

/-- C9: a non-split batch is submitted only when the best solution's
source and destination stores agree on TiFlash-ness, and a non-split best
solution whose stores disagree is rejected with the ledger untouched,
before any pending-influence insert. -/
theorem tryAddPendingInfluence_tiflash (c : SolverCtx) (pendings : Ledger)
    (best : BestSol) (op0 : HSOp) (rest : List HSOp)
    (hb : c.best = some best) (hops : c.ops = op0 :: rest) :
    ((bsTryAddPendingInfluence c pendings).1 = true → op0.isSplitKind = false →
      best.srcIsTiFlash = best.dstIsTiFlash) ∧
    (op0.isSplitKind = false → best.srcIsTiFlash ≠ best.dstIsTiFlash →
      bsTryAddPendingInfluence c pendings = (false, pendings)) := by
  constructor
  · intro hres hsplit
    by_contra hne
    have : bsTryAddPendingInfluence c pendings = (false, pendings) := by
      unfold bsTryAddPendingInfluence
      rw [hb, hops]
      simp [hsplit, hne]
    rw [this] at hres
    exact absurd hres (by simp)
  · intro hsplit hne
    unfold bsTryAddPendingInfluence
    rw [hb, hops]
    simp [hsplit, hne]

/-- Witness for C9: a TiFlash-mismatched non-split solution is rejected
and the ledger is unchanged. -/
theorem tryAddPendingInfluence_tiflash_witness :
    bsTryAddPendingInfluence
      { best := some { srcStoreId := 1, dstStoreId := 2, srcIsTiFlash := true,
                       dstIsTiFlash := false, hasRevertPeer := false }
        ops := [{ opRegionId := 10, isSplitKind := false, status := .started, zombieDur := 0 }]
        regionStoreIds := fun _ => none
        mainInfl := { loads := [1], count := 1 }
        revertInfl := { loads := [1], count := 1 }
        maxZombieDur := 5 } [] = (false, []) := by
  exact (tryAddPendingInfluence_tiflash _ []
    { srcStoreId := 1, dstStoreId := 2, srcIsTiFlash := true,
      dstIsTiFlash := false, hasRevertPeer := false }
    { opRegionId := 10, isSplitKind := false, status := .started, zombieDur := 0 } []
    rfl rfl).2 rfl (by decide)

/-- C5: a hot-peer list returned by `filterHotPeers` never contains a peer
whose region has a pending-influence entry, and never a peer flagged for
transfer-leader cool-down — in the raw branch and in the zipper-union
branch alike. -/
theorem filterHotPeers_excludes (ctx : FilterCtx) (d : StoreDetailM)
    (l : List HotPeerStatM) (h : filterHotPeersM ctx d = some l) :
    ∀ p ∈ l, ctx.pendings.lookup p.regionIdOfPeer = none ∧ p.needCoolDown = false := by
  intro p hp
  have hallow : hotPeerAllowed ctx p = true := by
    unfold filterHotPeersM at h
    by_cases hlen : ctx.maxPeerNum < d.hotPeers.length
    · simp only [hlen, if_true] at h
      rcases Option.map_eq_some'.mp h with ⟨union, _, rfl⟩
      exact (List.mem_filter.mp hp).2
    · simp only [hlen, if_false] at h
      cases h
      exact (List.mem_filter.mp hp).2
  have := of_decide_eq_true hallow
  exact ⟨Option.not_isSome_iff_eq_none.mp (by simp [this.1]), this.2⟩

/-- Witness for C5: on the over-cap fixture the pending region 1 is
excluded from the returned list. -/
theorem filterHotPeers_excludes_witness :
    filterHotPeersM ctxC8 storeC8 = some [] ∧
      ∀ p ∈ ([] : List HotPeerStatM),
        ctxC8.pendings.lookup p.regionIdOfPeer = none ∧ p.needCoolDown = false := by
  have h : filterHotPeersM ctxC8 storeC8 = some [] := by decide
  exact ⟨h, filterHotPeers_excludes ctxC8 storeC8 [] h⟩

/-- C1 counterexample: with a two-operator non-split batch whose revert
operator's region is already pending, the batch is rejected, yet the
ledger is not left as it was — the main operator's entry remains. -/
theorem tryAddPendingInfluence_partial_counterexample :
    (bsTryAddPendingInfluence ctxC1 ledgerC1).1 = false ∧
      (bsTryAddPendingInfluence ctxC1 ledgerC1).2 ≠ ledgerC1 := by
  decide

/-- C1 (amended): if the main operator's insert conflicts, the batch is
dropped and the ledger is unchanged; if the revert operator's insert
conflicts after the main insert succeeded, the batch is still dropped
(nothing is returned to the caller) but the main operator's ledger entry
remains — the insert pair is not atomic. -/
theorem tryAddPendingInfluence_conflict (c : SolverCtx) (pendings : Ledger)
    (best : BestSol) (op0 : HSOp) (rest : List HSOp)
    (hb : c.best = some best) (hops : c.ops = op0 :: rest) :
    ((pendings.lookup op0.opRegionId).isSome = true →
      bsTryAddPendingInfluence c pendings = (false, pendings)) ∧
    (∀ op1 rest1, rest = op1 :: rest1 →
      op0.isSplitKind = false →
      best.srcIsTiFlash = best.dstIsTiFlash →
      best.hasRevertPeer = true →
      pendings.lookup op0.opRegionId = none →
      ((pendings ++ [(op0.opRegionId,
          newPendingInfluence op0 [best.srcStoreId] best.dstStoreId
            c.mainInfl c.maxZombieDur)]).lookup op1.opRegionId).isSome = true →
      bsTryAddPendingInfluence c pendings =
        (false, pendings ++ [(op0.opRegionId,
          newPendingInfluence op0 [best.srcStoreId] best.dstStoreId
            c.mainInfl c.maxZombieDur)])) := by
  constructor
  · intro hmain
    unfold bsTryAddPendingInfluence
    rw [hb, hops]
    by_cases htf : op0.isSplitKind = false ∧ best.srcIsTiFlash ≠ best.dstIsTiFlash
    · simp [htf]
    · by_cases hsp : op0.isSplitKind
      · cases hrs : c.regionStoreIds op0.opRegionId with
        | none => simp [htf, hsp, hrs]
        | some ids => simp [htf, hsp, hrs, schTryAddPendingInfluence, hmain]
      · simp [htf, hsp, schTryAddPendingInfluence, hmain]
  · intro op1 rest1 hrest hsplit htfeq hrev hmain hrevlook
    subst hrest
    unfold bsTryAddPendingInfluence
    rw [hb, hops]
    simp [hsplit, htfeq, schTryAddPendingInfluence, hmain, hrev, hrevlook]

/-- Witness for C1 (amended): the revert-conflict fixture exercises the
second branch, leaving the main entry for region 10 behind. -/
theorem tryAddPendingInfluence_conflict_witness :
    bsTryAddPendingInfluence ctxC1 ledgerC1 =
      (false, ledgerC1 ++ [(op0C1.opRegionId,
        newPendingInfluence op0C1 [bestC1.srcStoreId] bestC1.dstStoreId
          ctxC1.mainInfl ctxC1.maxZombieDur)]) := by
  exact (tryAddPendingInfluence_conflict ctxC1 ledgerC1 bestC1 op0C1 [op1C1]
    rfl rfl).2 op1C1 [] rfl (by decide) (by decide) (by decide) (by decide) (by decide)

/-- Applying the same origin influence twice accumulates the weights. -/
theorem addInfluence_addInfluence (s o : Influence) (a b : ℚ) :
    addInfluence (addInfluence s o a) o b = addInfluence s o (a + b) := by
  have hz : ∀ (xs ys : List ℚ),
      List.zipWith (fun x y => x + b * y) (List.zipWith (fun x y => x + a * y) xs ys) ys =
        List.zipWith (fun x y => x + (a + b) * y) xs ys := by
    intro xs
    induction xs with
    | nil => intro ys; simp
    | cons x xs ih =>
      intro ys
      cases ys with
      | nil => simp
      | cons y ys =>
        simp only [List.zipWith_cons_cons, List.cons.injEq]
        exact ⟨by ring, ih ys⟩
  unfold addInfluence
  simp only [Influence.mk.injEq]
  exact ⟨hz s.loads o.loads, by ring⟩

/-- the weight computed by `calcPendingInfluence` always lies in `[0, 1]`. -/
theorem calcPendingInfluence_weight_bounds (status : OpStatus) (zd mz : Nat) :
    0 ≤ (calcPendingInfluence status zd mz).1 ∧
      (calcPendingInfluence status zd mz).1 ≤ 1 := by
  unfold calcPendingInfluence
  rcases status <;> by_cases h : mz ≤ zd <;> simp [isEndStatus, h]

/-- a decay step on an entry that needs GC deletes it and leaves the
summaries alone. -/
theorem summaryEntryStep_gc (p : PendingRec)
    (hg : (calcPendingInfluence p.opStatus p.zombieDur p.maxZombieDuration).2 = true)
    (acc : Summaries × Bool) (f : StoreId) :
    summaryEntryStep p acc f = (acc.1, true) := by
  unfold summaryEntryStep
  simp [hg]

/-- a decay step with zero weight and no GC changes nothing. -/
theorem summaryEntryStep_zero (p : PendingRec)
    (hg : (calcPendingInfluence p.opStatus p.zombieDur p.maxZombieDuration).2 = false)
    (hw : (calcPendingInfluence p.opStatus p.zombieDur p.maxZombieDuration).1 = 0)
    (acc : Summaries × Bool) (f : StoreId) :
    summaryEntryStep p acc f = acc := by
  unfold summaryEntryStep
  simp only [hg, Bool.false_eq_true, if_false, hw, lt_self_iff_false]
  cases h1 : acc.1 f <;> simp [h1] <;> cases h2 : acc.1 p.toStore <;> simp [h2]

/-- evaluation of a positive-weight, no-GC decay step: subtract the weight
at the from store, then add it at the to store, each when present. -/
theorem summaryEntryStep_eq (p : PendingRec)
    (hg : (calcPendingInfluence p.opStatus p.zombieDur p.maxZombieDuration).2 = false)
    (hw : 0 < (calcPendingInfluence p.opStatus p.zombieDur p.maxZombieDuration).1)
    (st : Summaries) (d : Bool) (f : StoreId) :
    summaryEntryStep p (st, d) f =
      (match
        (match st f with
          | some s => updStore st f
              (addInfluence s p.origin
                (-(calcPendingInfluence p.opStatus p.zombieDur p.maxZombieDuration).1))
          | none => st) p.toStore with
        | some s =>
          updStore
            (match st f with
              | some s => updStore st f
                  (addInfluence s p.origin
                    (-(calcPendingInfluence p.opStatus p.zombieDur p.maxZombieDuration).1))
              | none => st) p.toStore
            (addInfluence s p.origin
              (calcPendingInfluence p.opStatus p.zombieDur p.maxZombieDuration).1)
        | none =>
          match st f with
          | some s => updStore st f
              (addInfluence s p.origin
                (-(calcPendingInfluence p.opStatus p.zombieDur p.maxZombieDuration).1))
          | none => st, d) := by
  unfold summaryEntryStep
  simp only [hg, Bool.false_eq_true, if_false, if_pos hw]

/-- a no-GC decay step never deletes the entry. -/
theorem summaryEntryStep_snd (p : PendingRec)
    (hg : (calcPendingInfluence p.opStatus p.zombieDur p.maxZombieDuration).2 = false)
    (st : Summaries) (d : Bool) (f : StoreId) :
    (summaryEntryStep p (st, d) f).2 = d := by
  unfold summaryEntryStep
  simp only [hg, Bool.false_eq_true, if_false]

/-- a decay step leaves stores other than the from and to stores alone. -/
theorem summaryEntryStep_fst_other (p : PendingRec)
    (hg : (calcPendingInfluence p.opStatus p.zombieDur p.maxZombieDuration).2 = false)
    (hw : 0 < (calcPendingInfluence p.opStatus p.zombieDur p.maxZombieDuration).1)
    (st : Summaries) (d : Bool) (f : StoreId) (x : StoreId)
    (hx1 : x ≠ f) (hx2 : x ≠ p.toStore) :
    (summaryEntryStep p (st, d) f).1 x = st x := by
  have hf1 : ¬ (x = f) := hx1
  have hf2 : ¬ (x = p.toStore) := hx2
  rw [summaryEntryStep_eq p hg hw]
  cases h1 : st f <;> simp only [h1]
  · cases h2 : st p.toStore <;> simp [h2, updStore, hf1, hf2]
  · cases h2 : updStore st f
        (addInfluence _ p.origin
          (-(calcPendingInfluence p.opStatus p.zombieDur p.maxZombieDuration).1)) p.toStore <;>
      simp [h2, updStore, hf1, hf2]

/-- a positive-weight decay step subtracts the weighted origin at the
from store (when present). -/
theorem summaryEntryStep_fst_from (p : PendingRec)
    (hg : (calcPendingInfluence p.opStatus p.zombieDur p.maxZombieDuration).2 = false)
    (hw : 0 < (calcPendingInfluence p.opStatus p.zombieDur p.maxZombieDuration).1)
    (st : Summaries) (d : Bool) (f : StoreId) (hf : f ≠ p.toStore) :
    (summaryEntryStep p (st, d) f).1 f =
      Option.map
        (fun s => addInfluence s p.origin
          (-(calcPendingInfluence p.opStatus p.zombieDur p.maxZombieDuration).1))
        (st f) := by
  have hf' : ¬ (p.toStore = f) := fun h => hf h.symm
  have hff : ¬ (f = p.toStore) := hf
  rw [summaryEntryStep_eq p hg hw]
  cases h1 : st f with
  | none =>
    simp only [h1]
    cases h2 : st p.toStore <;> simp [h1, h2, updStore, hff, hf']
  | some s =>
    simp only [h1]
    have hto : updStore st f
        (addInfluence s p.origin
          (-(calcPendingInfluence p.opStatus p.zombieDur p.maxZombieDuration).1)) p.toStore =
        st p.toStore := by
      simp [updStore, hf']
    rw [hto]
    cases h2 : st p.toStore <;> simp [h1, h2, updStore, hff, hf']

/-- a positive-weight decay step adds the weighted origin at the to store
(when present). -/
theorem summaryEntryStep_fst_to (p : PendingRec)
    (hg : (calcPendingInfluence p.opStatus p.zombieDur p.maxZombieDuration).2 = false)
    (hw : 0 < (calcPendingInfluence p.opStatus p.zombieDur p.maxZombieDuration).1)
    (st : Summaries) (d : Bool) (f : StoreId) (hf : f ≠ p.toStore) :
    (summaryEntryStep p (st, d) f).1 p.toStore =
      Option.map
        (fun s => addInfluence s p.origin
          (calcPendingInfluence p.opStatus p.zombieDur p.maxZombieDuration).1)
        (st p.toStore) := by
  have hf' : ¬ (p.toStore = f) := fun h => hf h.symm
  have hff : ¬ (f = p.toStore) := hf
  rw [summaryEntryStep_eq p hg hw]
  cases h1 : st f with
  | none =>
    simp only [h1]
    cases h2 : st p.toStore <;> simp [h1, h2, updStore, hff, hf']
  | some s =>
    simp only [h1]
    have hto : updStore st f
        (addInfluence s p.origin
          (-(calcPendingInfluence p.opStatus p.zombieDur p.maxZombieDuration).1)) p.toStore =
        st p.toStore := by
      simp [updStore, hf']
    rw [hto]
    cases h2 : st p.toStore <;> simp [h1, h2, updStore, hff, hf']

/-- the decay inner loop on a GC-needing entry: it only deletes. -/
theorem summaryEntry_foldl_gc (p : PendingRec)
    (hg : (calcPendingInfluence p.opStatus p.zombieDur p.maxZombieDuration).2 = true) :
    ∀ (fr : List StoreId) (st : Summaries) (d : Bool),
      List.foldl (summaryEntryStep p) (st, d) fr =
        (st, if fr.isEmpty then d else true) := by
  intro fr
  induction fr with
  | nil => intro st d; simp
  | cons f fr ih =>
    intro st d
    rw [List.foldl_cons, summaryEntryStep_gc p hg (st, d) f, ih]
    cases fr <;> simp

/-- the decay inner loop on a zero-weight, retained entry: no change. -/
theorem summaryEntry_foldl_zero (p : PendingRec)
    (hg : (calcPendingInfluence p.opStatus p.zombieDur p.maxZombieDuration).2 = false)
    (hw : (calcPendingInfluence p.opStatus p.zombieDur p.maxZombieDuration).1 = 0) :
    ∀ (fr : List StoreId) (st : Summaries) (d : Bool),
      List.foldl (summaryEntryStep p) (st, d) fr = (st, d) := by
  intro fr
  induction fr with
  | nil => intro st d; simp
  | cons f fr ih =>
    intro st d
    rw [List.foldl_cons, summaryEntryStep_zero p hg hw (st, d) f, ih]

/-- the decay inner loop on a positive-weight, retained entry: the entry is
kept, every from store loses the weighted origin once, the to store gains
it once per from store, and no other store changes. -/
theorem summaryEntry_foldl_pos (p : PendingRec)
    (hg : (calcPendingInfluence p.opStatus p.zombieDur p.maxZombieDuration).2 = false)
    (hw : 0 < (calcPendingInfluence p.opStatus p.zombieDur p.maxZombieDuration).1) :
    ∀ (fr : List StoreId), fr.Nodup → p.toStore ∉ fr →
    ∀ (st : Summaries) (d : Bool),
      (List.foldl (summaryEntryStep p) (st, d) fr).2 = d ∧
      (∀ f ∈ fr, (List.foldl (summaryEntryStep p) (st, d) fr).1 f =
        Option.map
          (fun s => addInfluence s p.origin
            (-(calcPendingInfluence p.opStatus p.zombieDur p.maxZombieDuration).1))
          (st f)) ∧
      ((List.foldl (summaryEntryStep p) (st, d) fr).1 p.toStore =
        if fr.isEmpty then st p.toStore
        else Option.map
          (fun s => addInfluence s p.origin
            ((fr.length : ℚ) *
              (calcPendingInfluence p.opStatus p.zombieDur p.maxZombieDuration).1))
          (st p.toStore)) ∧
      (∀ x, x ∉ fr → x ≠ p.toStore →
        (List.foldl (summaryEntryStep p) (st, d) fr).1 x = st x) := by
  intro fr
  induction fr with
  | nil =>
    intro _ _ st d
    refine ⟨rfl, by simp, by simp, fun x _ _ => rfl⟩
  | cons f fr ih =>
    intro hnd hto st d
    have hfto : f ≠ p.toStore := by
      intro h
      exact hto (h ▸ List.mem_cons_self f fr)
    have hffr : f ∉ fr := (List.nodup_cons.mp hnd).1
    have hnd' : fr.Nodup := (List.nodup_cons.mp hnd).2
    have hto' : p.toStore ∉ fr := fun h => hto (List.mem_cons_of_mem f h)
    rw [List.foldl_cons]
    have hpair : summaryEntryStep p (st, d) f =
        ((summaryEntryStep p (st, d) f).1, d) := by
      have := summaryEntryStep_snd p hg st d f
      exact Prod.ext rfl this
    rw [hpair]
    obtain ⟨ih1, ih2, ih3, ih4⟩ := ih hnd' hto' (summaryEntryStep p (st, d) f).1 d
    refine ⟨ih1, ?_, ?_, ?_⟩
    · intro f' hf'
      rcases List.mem_cons.mp hf' with rfl | hf'mem
      · rw [ih4 f' hffr hfto]
        exact summaryEntryStep_fst_from p hg hw st d f' hfto
      · rw [ih2 f' hf'mem,
          summaryEntryStep_fst_other p hg hw st d f f'
            (fun h => hffr (h ▸ hf'mem)) ?hne]
        intro h
        exact hto' (h ▸ hf'mem)
    · have hstep_to := summaryEntryStep_fst_to p hg hw st d f hfto
      rw [ih3, hstep_to]
      cases hfr : fr with
      | nil => simp
      | cons a l =>
        cases hsto : st p.toStore with
        | none => simp
        | some s =>
          simp only [List.isEmpty_cons, Bool.false_eq_true, if_false, hsto,
            Option.map_map, Option.map_some', Function.comp_apply,
            Option.some.injEq, List.length_cons]
          rw [addInfluence_addInfluence]
          congr 1
          push_cast
          ring
    · intro x hx hxto
      have hxf : x ≠ f := fun h => hx (h ▸ List.mem_cons_self f fr)
      have hxfr : x ∉ fr := fun h => hx (List.mem_cons_of_mem f h)
      rw [ih4 x hxfr hxto]
      exact summaryEntryStep_fst_other p hg hw st d f x hxf hxto

/-- C2 counterexample: a retained entry with two from stores applies the
weighted origin influence to its present to store once per from store —
twice here — and not exactly once as the claim states. -/
theorem summaryPendingInfluence_to_counterexample :
    (summaryPendingInfluence storesC2 [(7, recC2)]).1 3 =
      some { loads := [2], count := 2 } ∧
    (summaryPendingInfluence storesC2 [(7, recC2)]).1 3 ≠
      some (addInfluence { loads := [0], count := 0 } recC2.origin 1) := by
  have hval : (summaryPendingInfluence storesC2 [(7, recC2)]).1 3 =
      some { loads := [2], count := 2 } := by
    norm_num [summaryPendingInfluence, summaryEntry, summaryEntryStep,
      calcPendingInfluence, isEndStatus, storesC2, recC2, updStore, addInfluence,
      List.foldl]
  refine ⟨hval, ?_⟩
  rw [hval]
  intro h
  have hl := congrArg Influence.loads (Option.some.inj h)
  norm_num [addInfluence, recC2, List.zipWith] at hl

/-- C2 (amended): for a decay pass over a retained entry whose from stores
are distinct and do not contain the to store, the computed weight lies in
`[0,1]`, the entry is deleted exactly when GC is needed (in which case the
summaries are untouched), a zero weight changes nothing, and a positive
weight subtracts the weighted origin once at every present from store,
adds it once per from store at the present to store, and changes no other
store. -/
theorem summaryPendingInfluence_entry (stores : Summaries) (rid : RegionId)
    (p : PendingRec) (hnodup : p.froms.Nodup) (hto : p.toStore ∉ p.froms)
    (hne : p.froms ≠ []) :
    (0 ≤ (calcPendingInfluence p.opStatus p.zombieDur p.maxZombieDuration).1 ∧
      (calcPendingInfluence p.opStatus p.zombieDur p.maxZombieDuration).1 ≤ 1) ∧
    ((summaryPendingInfluence stores [(rid, p)]).2 =
      if (calcPendingInfluence p.opStatus p.zombieDur p.maxZombieDuration).2 then []
      else [(rid, p)]) ∧
    ((calcPendingInfluence p.opStatus p.zombieDur p.maxZombieDuration).2 = true →
      (summaryPendingInfluence stores [(rid, p)]).1 = stores) ∧
    ((calcPendingInfluence p.opStatus p.zombieDur p.maxZombieDuration).2 = false →
      (calcPendingInfluence p.opStatus p.zombieDur p.maxZombieDuration).1 = 0 →
      (summaryPendingInfluence stores [(rid, p)]).1 = stores) ∧
    ((calcPendingInfluence p.opStatus p.zombieDur p.maxZombieDuration).2 = false →
      0 < (calcPendingInfluence p.opStatus p.zombieDur p.maxZombieDuration).1 →
      (∀ f ∈ p.froms,
        (summaryPendingInfluence stores [(rid, p)]).1 f =
          Option.map
            (fun s => addInfluence s p.origin
              (-(calcPendingInfluence p.opStatus p.zombieDur p.maxZombieDuration).1))
            (stores f)) ∧
      ((summaryPendingInfluence stores [(rid, p)]).1 p.toStore =
        Option.map
          (fun s => addInfluence s p.origin
            ((p.froms.length : ℚ) *
              (calcPendingInfluence p.opStatus p.zombieDur p.maxZombieDuration).1))
          (stores p.toStore)) ∧
      (∀ x, x ∉ p.froms → x ≠ p.toStore →
        (summaryPendingInfluence stores [(rid, p)]).1 x = stores x)) := by
  have hred : summaryPendingInfluence stores [(rid, p)] =
      ((summaryEntry stores p).1,
        if (summaryEntry stores p).2 then [] else [(rid, p)]) := by
    unfold summaryPendingInfluence
    simp
  have hfne : p.froms.isEmpty = false := by
    cases h : p.froms with
    | nil => exact absurd h hne
    | cons a l => rfl
  refine ⟨calcPendingInfluence_weight_bounds _ _ _, ?_, ?_, ?_, ?_⟩
  · rw [hred]
    cases hg : (calcPendingInfluence p.opStatus p.zombieDur p.maxZombieDuration).2 with
    | true =>
      have := summaryEntry_foldl_gc p hg p.froms stores false
      simp only [summaryEntry, this, hfne, Bool.false_eq_true, if_false, if_true]
    | false =>
      rcases lt_or_eq_of_le (calcPendingInfluence_weight_bounds p.opStatus
          p.zombieDur p.maxZombieDuration).1 with hw | hw
      · have := (summaryEntry_foldl_pos p hg hw p.froms hnodup hto stores false).1
        simp only [summaryEntry, this, Bool.false_eq_true, if_false]
      · have := summaryEntry_foldl_zero p hg hw.symm p.froms stores false
        simp only [summaryEntry, this, Bool.false_eq_true, if_false]
  · intro hg
    rw [hred]
    have := summaryEntry_foldl_gc p hg p.froms stores false
    simp only [summaryEntry, this]
  · intro hg hw
    rw [hred]
    have := summaryEntry_foldl_zero p hg hw p.froms stores false
    simp only [summaryEntry, this]
  · intro hg hw
    obtain ⟨_, h2, h3, h4⟩ := summaryEntry_foldl_pos p hg hw p.froms hnodup hto stores false
    refine ⟨?_, ?_, ?_⟩
    · intro f hf
      rw [hred]
      exact h2 f hf
    · rw [hred]
      simpa [hfne] using h3
    · intro x hx hxto
      rw [hred]
      exact h4 x hx hxto

/-- Witness for C2 (amended): the two-from fixture entry is retained, each
from store loses the origin once, and the to store gains it twice. -/
theorem summaryPendingInfluence_entry_witness :
    (summaryPendingInfluence storesC2 [(7, recC2)]).1 1 =
      some { loads := [-1], count := -1 } ∧
    (summaryPendingInfluence storesC2 [(7, recC2)]).1 3 =
      some { loads := [2], count := 2 } ∧
    (summaryPendingInfluence storesC2 [(7, recC2)]).2 = [(7, recC2)] := by
  obtain ⟨_, h2, _, _, h5⟩ :=
    summaryPendingInfluence_entry storesC2 7 recC2 (by decide) (by decide) (by decide)
  obtain ⟨ha, hb, _⟩ := h5
    (by norm_num [calcPendingInfluence, isEndStatus, recC2])
    (by norm_num [calcPendingInfluence, isEndStatus, recC2])
  refine ⟨(ha 1 (by decide)).trans ?_, hb.trans ?_, h2.trans ?_⟩
  · norm_num [storesC2, recC2, calcPendingInfluence, isEndStatus, addInfluence]
  · norm_num [storesC2, recC2, calcPendingInfluence, isEndStatus, addInfluence]
  · norm_num [calcPendingInfluence, isEndStatus, recC2]

/-- what a successful `splitBucketBySize` produces: a split operator on the
region, keyed at the middle in-range bucket boundary. -/
theorem splitBucketBySize_some (r : RegionInfoM) (op : OperatorM)
    (h : splitBucketBySize r = some op) :
    op.kind = OpKindM.splitOp ∧ op.opRegion = r.rid ∧ op.isRevert = false ∧
    op.splitKey =
      (r.bucketKeys.filter (fun k => keyBetween r.startKey r.endKey k)).getD
        ((r.bucketKeys.filter (fun k => keyBetween r.startKey r.endKey k)).length / 2) 0 := by
  unfold splitBucketBySize at h
  by_cases he : (r.bucketKeys.filter (fun k => keyBetween r.startKey r.endKey k)).isEmpty
  · simp [he] at h
  · simp only [he, Bool.false_eq_true, if_false, Option.some.injEq] at h
    subst h
    exact ⟨rfl, rfl, rfl, rfl⟩

/-- what a successful `createOperator` produces: an operator on the given
region, from the given source store to the given destination store, never
a split operator and not yet revert-tagged. -/
theorem createOperator_fields (region : RegionInfoM) (s d : StoreId)
    (op : OperatorM) (h : createOperator region s d = some op) :
    op.srcStore = s ∧ op.dstStore = d ∧ op.opRegion = region.rid ∧
    op.isRevert = false ∧ op.kind ≠ OpKindM.splitOp := by
  unfold createOperator at h
  by_cases hd : (getStorePeer region d).isSome
  · simp only [hd, if_true, Option.some.injEq] at h
    subst h
    exact ⟨rfl, rfl, rfl, rfl, by simp⟩
  · simp only [hd, Bool.false_eq_true, if_false] at h
    cases hs : getStorePeer region s with
    | none => rw [hs] at h; cases h
    | some p =>
      rw [hs] at h
      by_cases hl : region.leaderStoreId = s
      · simp only [hl, if_true, Option.some.injEq] at h
        subst h
        exact ⟨rfl, rfl, rfl, rfl, by simp⟩
      · simp only [hl, if_false, Option.some.injEq] at h
        subst h
        exact ⟨rfl, rfl, rfl, rfl, by simp⟩

/-- C3 counterexample: when both the main and the revert region are
oversize, `buildOperators` emits two split operators, and the second is
not the revert of the first (it carries no revert tag and no swapped
store pair). -/
theorem buildOperators_pair_counterexample :
    (buildOperators bC3).length = 2 ∧
      ((buildOperators bC3).getD 1 dummyOp).isRevert = false ∧
      ((buildOperators bC3).getD 1 dummyOp).kind = OpKindM.splitOp := by
  decide

/-- the `splitRegions` list never holds more than the two selected
regions. -/
theorem splitRegionsOf_length (b : BuildCtx) (region : RegionInfoM) :
    (splitRegionsOf b region).length ≤ 2 := by
  unfold splitRegionsOf
  split
  · refine le_trans (List.length_filter_le _ _) ?_
    cases b.cur.revertRegion <;> simp
  · simp

/-- membership in the `splitRegions` list: only the oversized selected
regions of a `movePeer` solution qualify. -/
theorem splitRegionsOf_mem (b : BuildCtx) (region r : RegionInfoM)
    (h : r ∈ splitRegionsOf b region) :
    (r = region ∨ b.cur.revertRegion = some r) ∧
    b.maxMovableHotPeerSize < r.approximateSize ∧ b.opTy = OpTypeM.movePeer := by
  unfold splitRegionsOf at h
  split at h
  · next hty =>
    have hf := List.mem_filter.mp h
    refine ⟨?_, of_decide_eq_true hf.2, hty⟩
    rcases List.mem_cons.mp hf.1 with rfl | htail
    · exact Or.inl rfl
    · cases hrr : b.cur.revertRegion with
      | none => rw [hrr] at htail; cases htail
      | some rr =>
        rw [hrr] at htail
        simp only [List.mem_singleton] at htail
        subst htail
        exact Or.inr rfl
  · cases h

/-- an oversize selected region makes the `splitRegions` list non-empty. -/
theorem splitRegionsOf_ne (b : BuildCtx) (region : RegionInfoM)
    (hr : b.cur.region = some region) (hty : b.opTy = OpTypeM.movePeer)
    (hover : ∃ r, (b.cur.region = some r ∨ b.cur.revertRegion = some r) ∧
      b.maxMovableHotPeerSize < r.approximateSize) :
    (splitRegionsOf b region).isEmpty = false := by
  rcases hover with ⟨r, hor, hsize⟩
  have hmem : r ∈ splitRegionsOf b region := by
    unfold splitRegionsOf
    rw [if_pos hty]
    apply List.mem_filter.mpr
    refine ⟨?_, by simp [hsize]⟩
    rcases hor with hor | hor
    · rw [hr] at hor
      cases hor
      exact List.mem_cons_self _ _
    · rw [hor]
      exact List.mem_cons_of_mem _ (List.mem_cons_self _ _)
  cases hflt : splitRegionsOf b region with
  | nil => rw [hflt] at hmem; cases hmem
  | cons a l => rfl

/-- C3 (amended): every `buildOperators` call emits at most two operators,
and when it emits exactly two that are not split operators, the second is
the revert of the first: revert-tagged, built on the revert region, with
source and destination stores swapped (so the two emitted regions differ
whenever the revert region id differs from the main region id, which the
search loop guarantees before building). -/
theorem buildOperators_spec (b : BuildCtx) :
    (buildOperators b).length ≤ 2 ∧
    (∀ op0 op1, buildOperators b = [op0, op1] → op0.kind ≠ OpKindM.splitOp →
      op0.isRevert = false ∧ op1.isRevert = true ∧
      op0.srcStore = op1.dstStore ∧ op0.dstStore = op1.srcStore ∧
      (∃ region rr, b.cur.region = some region ∧ b.cur.revertRegion = some rr ∧
        op0.opRegion = region.rid ∧ op1.opRegion = rr.rid)) := by
  unfold buildOperators
  split
  · exact ⟨by simp, fun _ _ h _ => by simp at h⟩
  split
  case _ src dst region hsrc hdst hreg =>
    split
    · constructor
      · exact le_trans (List.length_filterMap_le _ _) (splitRegionsOf_length b region)
      · intro op0 op1 hpair hnsplit
        have hmem : op0 ∈ createSplitOperatorBySize (splitRegionsOf b region) := by
          rw [hpair]
          exact List.mem_cons_self _ _
        rcases List.mem_filterMap.mp hmem with ⟨r, _, hsome⟩
        exact absurd (splitBucketBySize_some r op0 hsome).1 hnsplit
    · split
      · exact ⟨by simp, fun _ _ h _ => by simp at h⟩
      case _ mainOp hmain =>
        split
        · exact ⟨by simp, fun _ _ h _ => by simp at h⟩
        case _ rr hrr =>
          split
          · exact ⟨by simp, fun _ _ h _ => by simp at h⟩
          case _ revOp hrev =>
            refine ⟨by simp, ?_⟩
            intro op0 op1 hpair _
            have h0 : decorateOperator mainOp false = op0 := (List.cons.inj hpair).1
            have h1 : decorateOperator revOp true = op1 :=
              (List.cons.inj (List.cons.inj hpair).2).1
            obtain ⟨hm1, hm2, hm3, _, _⟩ :=
              createOperator_fields region src.storeId dst.storeId mainOp hmain
            obtain ⟨hv1, hv2, hv3, _, _⟩ :=
              createOperator_fields rr dst.storeId src.storeId revOp hrev
            subst h0 h1
            refine ⟨rfl, rfl, ?_, ?_, region, rr, hreg, hrr, ?_, ?_⟩ <;>
              simp [decorateOperator, hm1, hm2, hm3, hv1, hv2, hv3]
  case _ x1 x2 x3 hne =>
    exact ⟨by simp, fun _ _ h _ => by simp at h⟩

/-- Witness for C3 (amended): the non-split fixture produces a main
operator and its revert with swapped source and destination stores. -/
theorem buildOperators_spec_witness :
    ((buildOperators bC3Move).getD 0 dummyOp).isRevert = false ∧
    ((buildOperators bC3Move).getD 1 dummyOp).isRevert = true ∧
    ((buildOperators bC3Move).getD 0 dummyOp).srcStore =
      ((buildOperators bC3Move).getD 1 dummyOp).dstStore ∧
    ((buildOperators bC3Move).getD 0 dummyOp).dstStore =
      ((buildOperators bC3Move).getD 1 dummyOp).srcStore ∧
    (∃ region rr, bC3Move.cur.region = some region ∧
      bC3Move.cur.revertRegion = some rr ∧
      ((buildOperators bC3Move).getD 0 dummyOp).opRegion = region.rid ∧
      ((buildOperators bC3Move).getD 1 dummyOp).opRegion = rr.rid) := by
  exact (buildOperators_spec bC3Move).2
    ((buildOperators bC3Move).getD 0 dummyOp)
    ((buildOperators bC3Move).getD 1 dummyOp)
    (by decide) (by decide)

/-- C7: for a `movePeer` solution with an oversize selected region (main
or revert), every operator `buildOperators` emits is a split operator of
the `bySize` strategy on one of the oversize selected regions, keyed at
the middle in-range bucket boundary key; in particular no move operator
is emitted for that solution. -/
theorem buildOperators_oversize_split (b : BuildCtx)
    (hty : b.opTy = OpTypeM.movePeer)
    (hover : ∃ r, (b.cur.region = some r ∨ b.cur.revertRegion = some r) ∧
      b.maxMovableHotPeerSize < r.approximateSize) :
    ∀ op ∈ buildOperators b,
      op.kind = OpKindM.splitOp ∧
      ∃ r, (b.cur.region = some r ∨ b.cur.revertRegion = some r) ∧
        b.maxMovableHotPeerSize < r.approximateSize ∧
        op.opRegion = r.rid ∧
        op.splitKey =
          (r.bucketKeys.filter (fun k => keyBetween r.startKey r.endKey k)).getD
            ((r.bucketKeys.filter
              (fun k => keyBetween r.startKey r.endKey k)).length / 2) 0 := by
  intro op hop
  unfold buildOperators at hop
  split at hop
  · cases hop
  split at hop
  case _ src dst region hsrc hdst hreg =>
    split at hop
    · rcases List.mem_filterMap.mp hop with ⟨r, hrmem, hrsome⟩
      obtain ⟨hor, hsize, _⟩ := splitRegionsOf_mem b region r hrmem
      obtain ⟨hk, hrid, _, hkey⟩ := splitBucketBySize_some r op hrsome
      refine ⟨hk, r, ?_, hsize, hrid, hkey⟩
      rcases hor with rfl | hor
      · exact Or.inl hreg
      · exact Or.inr hor
    · next hemp =>
      exact absurd (splitRegionsOf_ne b region hreg hty hover) hemp
  case _ x1 x2 x3 h =>
    cases hop

/-- Witness for C7: both oversize regions of the fixture yield split
operators keyed at their middle in-range bucket key. -/
theorem buildOperators_oversize_split_witness :
    ((buildOperators bC3).getD 0 dummyOp).kind = OpKindM.splitOp ∧
    (∃ r, (bC3.cur.region = some r ∨ bC3.cur.revertRegion = some r) ∧
      bC3.maxMovableHotPeerSize < r.approximateSize ∧
      ((buildOperators bC3).getD 0 dummyOp).opRegion = r.rid ∧
      ((buildOperators bC3).getD 0 dummyOp).splitKey =
        (r.bucketKeys.filter (fun k => keyBetween r.startKey r.endKey k)).getD
          ((r.bucketKeys.filter
            (fun k => keyBetween r.startKey r.endKey k)).length / 2) 0) := by
  exact buildOperators_oversize_split bC3 rfl
    ⟨regionC3, Or.inl rfl, by decide⟩
    ((buildOperators bC3).getD 0 dummyOp) (by decide)

/-- when the inner pop returns nothing, every element of the list was
already in the union. -/
theorem popUnseen_none (union : List HotPeerStatM) :
    ∀ l, popUnseen union l = none → ∀ q ∈ l, q ∈ union := by
  intro l
  induction l with
  | nil => intro _ q hq; cases hq
  | cons a rest ih =>
    intro h q hq
    unfold popUnseen at h
    by_cases ha : a ∈ union
    · rw [if_pos ha] at h
      rcases List.mem_cons.mp hq with rfl | hq'
      · exact ha
      · exact ih h q hq'
    · rw [if_neg ha] at h
      cases h

/-- what a successful inner pop returns: an element outside the union,
every dropped element being in the union already. -/
theorem popUnseen_some (union : List HotPeerStatM) :
    ∀ l p rest, popUnseen union l = some (p, rest) →
      p ∉ union ∧ ∀ q ∈ l, q ∈ union ∨ q = p ∨ q ∈ rest := by
  intro l
  induction l with
  | nil => intro p rest h; cases h
  | cons a tl ih =>
    intro p rest h
    unfold popUnseen at h
    by_cases ha : a ∈ union
    · rw [if_pos ha] at h
      obtain ⟨h1, h2⟩ := ih p rest h
      refine ⟨h1, fun q hq => ?_⟩
      rcases List.mem_cons.mp hq with rfl | hq'
      · exact Or.inl ha
      · exact h2 q hq'
    · rw [if_neg ha] at h
      obtain ⟨rfl, rfl⟩ : a = p ∧ tl = rest := by
        have := Option.some.inj h
        exact ⟨congrArg Prod.fst this, congrArg Prod.snd this⟩
      refine ⟨ha, fun q hq => ?_⟩
      rcases List.mem_cons.mp hq with rfl | hq'
      · exact Or.inr (Or.inl rfl)
      · exact Or.inr (Or.inr hq')

/-- a list with an element outside the union makes the inner pop succeed. -/
theorem popUnseen_progress (union : List HotPeerStatM) :
    ∀ l, (∃ q ∈ l, q ∉ union) →
      ∃ p rest, popUnseen union l = some (p, rest) := by
  intro l
  induction l with
  | nil => intro ⟨q, hq, _⟩; cases hq
  | cons a tl ih =>
    intro ⟨q, hq, hqu⟩
    unfold popUnseen
    by_cases ha : a ∈ union
    · rw [if_pos ha]
      refine ih ⟨q, ?_, hqu⟩
      rcases List.mem_cons.mp hq with rfl | hq'
      · exact absurd ha hqu
      · exact hq'
    · rw [if_neg ha]
      exact ⟨a, tl, rfl⟩

/-- descending insertion produces a permutation. -/
theorem insertDesc_perm (dim : Nat) (p : HotPeerStatM) :
    ∀ l, (insertDesc dim p l).Perm (p :: l) := by
  intro l
  induction l with
  | nil => exact List.Perm.refl _
  | cons q rest ih =>
    unfold insertDesc
    by_cases h : getLoad q dim < getLoad p dim
    · rw [if_pos h]
    · rw [if_neg h]
      exact (List.Perm.cons q ih).trans (List.Perm.swap p q rest)

/-- the descending sort is a permutation of its input, so it contains the
same hot peers. -/
theorem sortByLoadDesc_perm (dim : Nat) :
    ∀ l, (sortByLoadDesc dim l).Perm l := by
  intro l
  induction l with
  | nil => exact List.Perm.refl _
  | cons p rest ih =>
    unfold sortByLoadDesc
    exact (insertDesc_perm dim p _).trans (List.Perm.cons p ih)

/-- gas induction for the zipper-union loop of `sortHotPeers`: as long as
every hot peer still sits in the union or in the remaining first-priority
list, each outer iteration grows the union, so gas covering the missing
count suffices and the union ends with exactly `maxP` distinct peers. -/
theorem sortHotPeersGas_spec (peers : List HotPeerStatM) (hnd : peers.Nodup)
    (maxP : Nat) (hlen : maxP < peers.length) :
    ∀ gas firstSort secondSort union,
      union.Nodup →
      (∀ q ∈ peers, q ∈ union ∨ q ∈ firstSort) →
      union.length ≤ maxP →
      maxP ≤ union.length + gas →
      ∃ u, sortHotPeersGas maxP gas firstSort secondSort union = some u ∧
        u.length = maxP ∧ u.Nodup := by
  intro gas
  induction gas with
  | zero =>
    intro firstSort secondSort union hund hinv hle hge
    have heq : maxP ≤ union.length := by omega
    refine ⟨union, ?_, by omega, hund⟩
    unfold sortHotPeersGas
    rw [if_pos heq]
  | succ gas ih =>
    intro firstSort secondSort union hund hinv hle hge
    by_cases hdone : maxP ≤ union.length
    · refine ⟨union, ?_, by omega, hund⟩
      unfold sortHotPeersGas
      rw [if_pos hdone]
    · have hlt : union.length < maxP := by omega
      have hfind : ∃ q ∈ firstSort, q ∉ union := by
        by_contra hall
        push_neg at hall
        have hsub : peers ⊆ union := by
          intro q hq
          rcases hinv q hq with h | h
          · exact h
          · exact hall q h
        have := (List.subperm_of_subset hnd hsub).length_le
        omega
      obtain ⟨p, rest1, hpop⟩ := popUnseen_progress union firstSort hfind
      obtain ⟨hpu, hpall⟩ := popUnseen_some union firstSort p rest1 hpop
      have hundA : (union ++ [p]).Nodup := by
        simp [List.nodup_append, hund, hpu]
      have hinvA : ∀ q ∈ peers, q ∈ union ++ [p] ∨ q ∈ rest1 := by
        intro q hq
        rcases hinv q hq with h | h
        · exact Or.inl (List.mem_append_left _ h)
        · rcases hpall q h with h' | h' | h'
          · exact Or.inl (List.mem_append_left _ h')
          · exact Or.inl (List.mem_append_right _ (by simp [h']))
          · exact Or.inr h'
      have hlenA : (union ++ [p]).length = union.length + 1 := by simp
      have hstep : sortHotPeersGas maxP (gas + 1) firstSort secondSort union =
          (let st := sortStep maxP (firstSort, secondSort, union)
           sortHotPeersGas maxP gas st.1 st.2.1 st.2.2) := by
        rw [show sortHotPeersGas maxP (gas + 1) firstSort secondSort union =
            (if maxP ≤ union.length then some union
             else
               (let st := sortStep maxP (firstSort, secondSort, union)
                sortHotPeersGas maxP gas st.1 st.2.1 st.2.2)) from rfl]
        rw [if_neg hdone]
      rw [hstep]
      simp only [sortStep, hpop]
      by_cases hsec : (union ++ [p]).length < maxP
      · rw [if_pos hsec]
        cases hpop2 : popUnseen (union ++ [p]) secondSort with
        | none =>
          exact ih rest1 [] (union ++ [p]) hundA hinvA (by omega) (by omega)
        | some pr =>
          obtain ⟨p2, rest2⟩ := pr
          obtain ⟨hp2u, _⟩ := popUnseen_some (union ++ [p]) secondSort p2 rest2 hpop2
          have hundB : ((union ++ [p]) ++ [p2]).Nodup := by
            simp only [List.nodup_append] at hundA ⊢
            simp_all [List.nodup_append]
          have hinvB : ∀ q ∈ peers, q ∈ (union ++ [p]) ++ [p2] ∨ q ∈ rest1 := by
            intro q hq
            rcases hinvA q hq with h | h
            · exact Or.inl (List.mem_append_left _ h)
            · exact Or.inr h
          refine ih rest1 rest2 ((union ++ [p]) ++ [p2]) hundB hinvB ?_ ?_
          · simp only [List.length_append, List.length_singleton]
            omega
          · simp only [List.length_append, List.length_singleton]
            omega
      · rw [if_neg hsec]
        exact ih rest1 secondSort (union ++ [p]) hundA hinvA (by omega) (by omega)

/-- C10: `sortHotPeers` terminates on every input `filterHotPeers` gives
it — two sort lists each containing all of the store's distinct hot peers,
which number strictly more than `maxPeerNum` — because every outer
iteration adds at least one new peer, so `maxPeerNum` outer iterations of
gas suffice and the union reaches exactly `maxPeerNum` peers. -/
theorem sortHotPeers_terminates (hotPeers firstSort secondSort : List HotPeerStatM)
    (maxP : Nat) (hnd : hotPeers.Nodup)
    (hsub1 : ∀ q ∈ hotPeers, q ∈ firstSort)
    (_hsub2 : ∀ q ∈ hotPeers, q ∈ secondSort)
    (hlen : maxP < hotPeers.length) :
    ∃ u, sortHotPeersGas maxP maxP firstSort secondSort [] = some u ∧
      u.length = maxP := by
  obtain ⟨u, h1, h2, _⟩ :=
    sortHotPeersGas_spec hotPeers hnd maxP hlen maxP firstSort secondSort []
      List.nodup_nil (fun q hq => Or.inr (hsub1 q hq)) (by simp) (by simp)
  exact ⟨u, h1, h2⟩

/-- Witness for C10: with cap 1 and two distinct hot peers in both sort
lists, the union loop finishes within one outer iteration. -/
theorem sortHotPeers_terminates_witness :
    ∃ u, sortHotPeersGas 1 1 [p1C8, p2C8] [p2C8, p1C8] [] = some u ∧
      u.length = 1 := by
  exact sortHotPeers_terminates [p1C8, p2C8] [p1C8, p2C8] [p2C8, p1C8] 1
    (by decide) (by decide) (by decide) (by decide)

/-- C8 counterexample: with cap 1 and two hot peers whose zipper union is
the single pending region 1, the filtered result is empty — the candidate
set is not the zipper union, and its size is below `maxPeerNum`. -/
theorem filterHotPeers_size_counterexample :
    filterHotPeersM ctxC8 storeC8 = some [] ∧
      ctxC8.maxPeerNum = 1 ∧ storeC8.hotPeers.length = 2 := by
  decide

/-- C8 (amended): for a store with more than `maxPeerNum` distinct hot
peers, the zipper union of the two descending sorts holds exactly
`maxPeerNum` peers, the filtered result is that union minus the pending
and cool-down peers, and its size equals `maxPeerNum` exactly when no
union member is excluded. -/
theorem filterHotPeers_overcap (ctx : FilterCtx) (d : StoreDetailM)
    (hnd : d.hotPeers.Nodup)
    (hlen : ctx.maxPeerNum < d.hotPeers.length) :
    ∃ union,
      sortHotPeersGas ctx.maxPeerNum ctx.maxPeerNum
        (sortByLoadDesc ctx.firstPriorityDim d.hotPeers)
        (sortByLoadDesc ctx.secondPriorityDim d.hotPeers) [] = some union ∧
      union.length = ctx.maxPeerNum ∧
      filterHotPeersM ctx d = some (union.filter (hotPeerAllowed ctx)) ∧
      ((∀ p ∈ union, hotPeerAllowed ctx p = true) →
        (union.filter (hotPeerAllowed ctx)).length = ctx.maxPeerNum) := by
  obtain ⟨u, h1, h2⟩ := sortHotPeers_terminates d.hotPeers
    (sortByLoadDesc ctx.firstPriorityDim d.hotPeers)
    (sortByLoadDesc ctx.secondPriorityDim d.hotPeers)
    ctx.maxPeerNum hnd
    (fun q hq => ((sortByLoadDesc_perm ctx.firstPriorityDim d.hotPeers).mem_iff).mpr hq)
    (fun q hq => ((sortByLoadDesc_perm ctx.secondPriorityDim d.hotPeers).mem_iff).mpr hq)
    hlen
  refine ⟨u, h1, h2, ?_, ?_⟩
  · unfold filterHotPeersM
    rw [if_pos hlen]
    simp only [h1, Option.map_some']
  · intro hall
    rw [List.filter_eq_self.mpr hall, h2]

/-- Witness for C8 (amended): with an empty ledger, the filtered result of
the over-cap fixture is the full zipper union of size 1. -/
theorem filterHotPeers_overcap_witness :
    ∃ union,
      sortHotPeersGas ctxC8b.maxPeerNum ctxC8b.maxPeerNum
        (sortByLoadDesc ctxC8b.firstPriorityDim storeC8.hotPeers)
        (sortByLoadDesc ctxC8b.secondPriorityDim storeC8.hotPeers) [] = some union ∧
      union.length = ctxC8b.maxPeerNum ∧
      filterHotPeersM ctxC8b storeC8 = some (union.filter (hotPeerAllowed ctxC8b)) ∧
      ((∀ p ∈ union, hotPeerAllowed ctxC8b p = true) →
        (union.filter (hotPeerAllowed ctxC8b)).length = ctxC8b.maxPeerNum) := by
  exact filterHotPeers_overcap ctxC8b storeC8 (by decide) (by decide)

end HotRegionSched
